import Mathlib

set_option linter.unnecessarySeqFocus false
set_option linter.unreachableTactic false
set_option linter.unusedTactic false

/-!
Verification of the tokie-go directory scanner: a scan-and-aggregate
pipeline (src/main.go, together with the two repository variants
src/unnamed/part_000 and src/unnamed/part_001) that walks a directory
tree, classifies files by extension, counts lines and bytes per file,
and aggregates per-language totals.

Shallow-embedding conventions:
* `FileData` models what the filesystem returns for one regular file:
  whether `os.Open` / `File.Stat` fail, the metadata size reported by
  `Stat`, and the byte stream the reads deliver (`ReadOutcome.ok` is
  the full content followed by EOF, `ReadOutcome.errAfter` is the
  given bytes followed by an I/O error).
* Go's `map[string]*LanguageStats` is embedded as an association list,
  so that "number of entries for a language" is expressible; lookups
  return the first entry with the given key, and a newly created entry
  is appended at the end (a Go map has no observable order).
* The `sync.Mutex`-guarded block of `processFile` (main.go:175-182,
  part_000:223-230) executes as one indivisible unit in the source; it
  is embedded as the pure function `recordFile`, and a concurrent run
  as a fold of these operations in an arbitrary interleaving order.
* `bufio.Scanner` with the default `ScanLines` split is embedded by
  `scanLineCount`: the tokens are the segments of the delivered bytes
  split at each newline byte, except that a trailing newline does not
  produce a final empty token.  When the underlying read fails, the
  scanner tokenizes the bytes delivered before the error (the split
  function runs with `atEOF` set once an error is recorded) and then
  `Scan` returns false with `Err()` non-nil.
* Go `int` / `int64` counters are embedded as `Int` (the claims never
  depend on 64-bit wrap-around).
-/

/-- Per-language counters, from `LanguageStats` (part_000:17-22; the
misspelled `LanguageStas` of main.go:17-22 has the same three counter
fields).  The `sync.Mutex` field is synchronization, not data, and is
not part of the embedded state. -/
structure LanguageStats where
  fileCount : Int
  lineCount : Int
  byteCount : Int
deriving DecidableEq, Repr

/-- The zero value `&LanguageStats{}` created at main.go:177. -/
def zeroStats : LanguageStats := ⟨0, 0, 0⟩

/-- What the byte stream of one file delivers to a reader: either the
full content followed by EOF, or some delivered bytes followed by an
I/O error. -/
inductive ReadOutcome where
  | ok : List Char → ReadOutcome
  | errAfter : List Char → ReadOutcome
deriving DecidableEq, Repr

/-- Model of one regular file as the filesystem presents it to the
program: `os.Open` failure, `File.Stat` failure, the `Stat` metadata
size, and the read stream. -/
structure FileData where
  openErr : Bool
  statErr : Bool
  size : Int
  read : ReadOutcome
deriving DecidableEq, Repr

/-- The bytes a reader receives before EOF or before the error. -/
def delivered : ReadOutcome → List Char
  | .ok c => c
  | .errAfter p => p

/-- Whether the stream ends in EOF rather than an I/O error, i.e.
whether `bufio.Scanner.Err()` is nil after the scan loop. -/
def readCleanly : ReadOutcome → Bool
  | .ok _ => true
  | .errAfter _ => false

/-- Number of tokens produced by `bufio.Scanner` with the `ScanLines`
split over the given bytes (the scan loops at main.go:171-173 and
part_001:151-153): every newline byte ends a token, and a final
non-empty remainder with no trailing newline is one more token. -/
def scanLineCount : List Char → Nat
  | [] => 0
  | [_] => 1
  | x :: y :: rest =>
    if x = '\n' then 1 + scanLineCount (y :: rest) else scanLineCount (y :: rest)

/-- `countLines` of part_001:142-156: open the file, run the scanner
loop, return the line count together with whether an error occurred
(the Go function returns `(lineCount, err)`; the second component here
is `err != nil`). -/
def countLines (f : FileData) : Nat × Bool :=
  if f.openErr then (0, true)
  else (scanLineCount (delivered f.read), !(readCleanly f.read))

/-- The line count stated by the spec: "counts the number of line
terminators (…; a final partial line with no trailing terminator still
counts as one line; an empty file counts as zero lines)".  Stated from
the spec's words, for comparison with `scanLineCount`. -/
def specLineCount (c : List Char) : Nat :=
  c.count '\n' + (if c.isEmpty then 0 else if c.getLast? = some '\n' then 0 else 1)

/-- First-match lookup in an association list (a Go map read
`m[k]`). -/
def lookupA {α : Type} : List (String × α) → String → Option α
  | [], _ => none
  | (k, v) :: rest, key => if k = key then some v else lookupA rest key

/-- The shared `stats` map, `map[string]*LanguageStats`
(main.go:63). -/
abbrev StatsTable := List (String × LanguageStats)

/-- In-place update of the first entry with the given key (a Go map
write `m[k] = f(m[k])` for a present key). -/
def updateStats : StatsTable → String → (LanguageStats → LanguageStats) → StatsTable
  | [], _, _ => []
  | (k, v) :: rest, key, f =>
    if k = key then (k, f v) :: rest else (k, v) :: updateStats rest key f

/-- The three increments of main.go:179-181. -/
def bumpStats (st : LanguageStats) (lineCount byteCount : Int) : LanguageStats :=
  { fileCount := st.fileCount + 1
    lineCount := st.lineCount + lineCount
    byteCount := st.byteCount + byteCount }

/-- The mutex-guarded block of main.go:175-182 (= part_000:223-230):
if the language has no entry yet, create a zeroed one, then increment
its three counters.  The spec calls this operation `recordFile`.  The
whole block runs under `statsMutex`, so it is one indivisible step of
the concurrent system. -/
def recordFile (stats : StatsTable) (language : String) (lineCount byteCount : Int) :
    StatsTable :=
  let stats1 :=
    if (lookupA stats language).isNone then stats ++ [(language, zeroStats)] else stats
  updateStats stats1 language (fun st => bumpStats st lineCount byteCount)

/-- `processFile` of main.go:157-183 (= part_000:205-231): open, stat,
scan, record.  A failed open or stat returns without touching the
table.  The scan loop ignores `scanner.Err()`, so the lines delivered
before a read error are still recorded, together with the stat size. -/
def processFile (f : FileData) (language : String) (stats : StatsTable) : StatsTable :=
  if f.openErr then stats
  else if f.statErr then stats
  else recordFile stats language (scanLineCount (delivered f.read) : Int) f.size

/-- A `FileResult` (main.go:24-27) as a worker receives it: the
language decided by the walker, and the model of the file found at the
task's path.  The spec calls these values FileTask. -/
abbrev FileTask := String × FileData

/-- One worker step on one task (the loop body at main.go:76-78). -/
def workerStep (s : StatsTable) (t : FileTask) : StatsTable := processFile t.2 t.1 s

/-- Folding all tasks through `processFile`, starting from the empty
table created at main.go:63.  By the mutex serialization, any concrete
run of the worker pool computes this fold for some interleaving order
of the task list. -/
def aggregateTasks (ts : List FileTask) : StatsTable := ts.foldl workerStep []

section AggregationLemmas

theorem lookupA_append {α : Type} (s t : List (String × α)) (k : String) :
    lookupA (s ++ t) k =
      match lookupA s k with
      | some v => some v
      | none => lookupA t k := by
  induction s with
  | nil => simp [lookupA]
  | cons hd tl ih =>
    obtain ⟨a, b⟩ := hd
    by_cases h : a = k <;> simp [lookupA, h, ih]

theorem lookupA_updateStats (s : StatsTable) (k : String)
    (f : LanguageStats → LanguageStats) (k' : String) :
    lookupA (updateStats s k f) k' =
      if k' = k then Option.map f (lookupA s k) else lookupA s k' := by
  induction s with
  | nil => by_cases h : k' = k <;> simp [updateStats, lookupA, h]
  | cons hd tl ih =>
    obtain ⟨a, b⟩ := hd
    by_cases hak : a = k
    · subst hak
      by_cases hk : k' = a
      · subst hk
        simp [updateStats, lookupA]
      · have hk2 : ¬(a = k') := fun h => hk h.symm
        simp [updateStats, lookupA, hk, hk2]
    · by_cases hk : k' = k
      · subst hk
        simp [updateStats, lookupA, hak, ih]
      · by_cases hk' : a = k'
        · subst hk'
          simp [updateStats, lookupA, hak, hk]
        · simp [updateStats, lookupA, hak, hk, hk', ih]

/-- The observable effect of one `recordFile` on lookups: the recorded
language is bumped (from the zero value if absent), every other
language is untouched. -/
theorem lookupA_recordFile (s : StatsTable) (l : String) (lc bc : Int) (l' : String) :
    lookupA (recordFile s l lc bc) l' =
      if l' = l then some (bumpStats ((lookupA s l).getD zeroStats) lc bc)
      else lookupA s l' := by
  unfold recordFile
  cases h : lookupA s l with
  | none =>
    have hl : lookupA (s ++ [(l, zeroStats)]) l = some zeroStats := by
      rw [lookupA_append, h]
      simp [lookupA]
    by_cases hk : l' = l
    · subst hk
      simp [h, lookupA_updateStats, hl]
    · have haux : lookupA (s ++ [(l, zeroStats)]) l' = lookupA s l' := by
        rw [lookupA_append]
        cases h' : lookupA s l' with
        | some v => rfl
        | none =>
          have hne : ¬(l = l') := fun hh => hk hh.symm
          simp [lookupA, hne]
      simp [h, lookupA_updateStats, hk, haux]
  | some v =>
    by_cases hk : l' = l
    · subst hk
      simp [h, lookupA_updateStats]
    · simp [h, lookupA_updateStats, hk]

/-- Number of entries of the table that carry the given language
label. -/
def countL (t : StatsTable) (l : String) : Nat :=
  t.countP (fun e => decide (e.1 = l))

theorem countL_updateStats (s : StatsTable) (k : String)
    (f : LanguageStats → LanguageStats) (l : String) :
    countL (updateStats s k f) l = countL s l := by
  induction s with
  | nil => rfl
  | cons hd tl ih =>
    obtain ⟨a, b⟩ := hd
    by_cases hak : a = k <;>
      simp [updateStats, countL, hak, List.countP_cons] at ih ⊢ <;>
      omega

theorem countL_append (s t : StatsTable) (l : String) :
    countL (s ++ t) l = countL s l + countL t l := by
  simp [countL, List.countP_append]

theorem countL_eq_zero_of_lookupA_none (s : StatsTable) (l : String)
    (h : lookupA s l = none) : countL s l = 0 := by
  induction s with
  | nil => rfl
  | cons hd tl ih =>
    obtain ⟨a, b⟩ := hd
    by_cases hak : a = l
    · simp [lookupA, hak] at h
    · simp [lookupA, hak] at h
      have hz := ih h
      simp only [countL, List.countP_cons] at hz ⊢
      simp [hak, hz]

theorem countL_recordFile_of_absent (s : StatsTable) (l : String) (lc bc : Int)
    (h : lookupA s l = none) : countL (recordFile s l lc bc) l = 1 := by
  unfold recordFile
  rw [if_pos (by simp [h]), countL_updateStats, countL_append,
    countL_eq_zero_of_lookupA_none s l h]
  simp [countL, List.countP_cons]

theorem countL_recordFile_of_present (s : StatsTable) (l : String) (lc bc : Int)
    (v : LanguageStats) (h : lookupA s l = some v) :
    countL (recordFile s l lc bc) l = countL s l := by
  unfold recordFile
  simp [h, countL_updateStats]

/-- The total of the `FileCount` column over the whole table. -/
def sumFileCounts (t : StatsTable) : Int :=
  (t.map (fun e => e.2.fileCount)).sum

theorem sumFileCounts_append (s t : StatsTable) :
    sumFileCounts (s ++ t) = sumFileCounts s + sumFileCounts t := by
  simp [sumFileCounts]

theorem sumFileCounts_updateStats (s : StatsTable) (k : String)
    (f : LanguageStats → LanguageStats) (v : LanguageStats)
    (h : lookupA s k = some v) :
    sumFileCounts (updateStats s k f) =
      sumFileCounts s + ((f v).fileCount - v.fileCount) := by
  induction s with
  | nil => simp [lookupA] at h
  | cons hd tl ih =>
    obtain ⟨a, b⟩ := hd
    by_cases hak : a = k
    · simp [lookupA, hak] at h
      subst h
      simp [updateStats, hak, sumFileCounts]
      ring
    · simp [lookupA, hak] at h
      simp [updateStats, hak, sumFileCounts] at ih ⊢
      rw [ih h]
      ring

/-- Each successful `processFile` adds exactly one to the grand file
total, whatever the table held before. -/
theorem sumFileCounts_recordFile (s : StatsTable) (l : String) (lc bc : Int) :
    sumFileCounts (recordFile s l lc bc) = sumFileCounts s + 1 := by
  unfold recordFile
  cases h : lookupA s l with
  | none =>
    have hl : lookupA (s ++ [(l, zeroStats)]) l = some zeroStats := by
      rw [lookupA_append, h]
      simp [lookupA]
    rw [if_pos (by simp [h]), sumFileCounts_updateStats _ _ _ _ hl,
      sumFileCounts_append]
    simp [sumFileCounts, zeroStats, bumpStats]
  | some v =>
    rw [if_neg (by simp [h]), sumFileCounts_updateStats _ _ _ _ h]
    simp [bumpStats]

/-- The contribution of one task after the open/stat/scan phase of
`processFile`: dropped when open or stat fails, otherwise the language
together with the scanned line count and the stat size. -/
def taskEffect (t : FileTask) : Option (String × Int × Int) :=
  if t.2.openErr then none
  else if t.2.statErr then none
  else some (t.1, (scanLineCount (delivered t.2.read) : Int), t.2.size)

/-- One `recordFile` application, uncurried. -/
def recStep (s : StatsTable) (e : String × Int × Int) : StatsTable :=
  recordFile s e.1 e.2.1 e.2.2

theorem workerStep_eq_taskEffect (s : StatsTable) (t : FileTask) :
    workerStep s t =
      match taskEffect t with
      | none => s
      | some e => recStep s e := by
  unfold workerStep processFile taskEffect recStep
  by_cases h1 : t.2.openErr <;> by_cases h2 : t.2.statErr <;> simp [h1, h2]

theorem foldl_workerStep_eq (ts : List FileTask) :
    ∀ s : StatsTable,
      ts.foldl workerStep s = (ts.filterMap taskEffect).foldl recStep s := by
  induction ts with
  | nil => intro s; rfl
  | cons t rest ih =>
    intro s
    rw [List.foldl_cons, workerStep_eq_taskEffect]
    cases h : taskEffect t with
    | none => simp [h, List.filterMap_cons, ih]
    | some e => simp [h, List.filterMap_cons, ih]

/-- The lookup view of one `recStep`. -/
def bumpO (acc : Option LanguageStats) (e : String × Int × Int) :
    Option LanguageStats :=
  some (bumpStats (acc.getD zeroStats) e.2.1 e.2.2)

/-- What a fold of `recordFile` steps does to the entry of one fixed
language: exactly the steps for that language are applied, in order. -/
theorem lookupA_foldl_recStep (es : List (String × Int × Int)) :
    ∀ (s : StatsTable) (l : String),
      lookupA (es.foldl recStep s) l =
        (es.filter (fun e => decide (e.1 = l))).foldl bumpO (lookupA s l) := by
  induction es with
  | nil => intro s l; rfl
  | cons e rest ih =>
    intro s l
    rw [List.foldl_cons, ih]
    by_cases hel : e.1 = l
    · have hv : lookupA (recStep s e) l =
          some (bumpStats ((lookupA s l).getD zeroStats) e.2.1 e.2.2) := by
        unfold recStep
        rw [lookupA_recordFile]
        simp [hel]
      simp [List.filter_cons, hel, hv, bumpO]
    · have hv : lookupA (recStep s e) l = lookupA s l := by
        unfold recStep
        rw [lookupA_recordFile, if_neg (fun hh : l = e.1 => hel hh.symm)]
      simp [List.filter_cons, hel, hv]

/-- Closed form of a non-empty chain of bumps: the file count grows by
the number of steps and the line/byte counts by the sums of the
increments. -/
theorem foldl_bumpO_closed (ms : List (String × Int × Int)) :
    ∀ acc : Option LanguageStats, ms ≠ [] →
      ms.foldl bumpO acc =
        some { fileCount := (acc.getD zeroStats).fileCount + ms.length
               lineCount := (acc.getD zeroStats).lineCount + (ms.map (fun e => e.2.1)).sum
               byteCount := (acc.getD zeroStats).byteCount + (ms.map (fun e => e.2.2)).sum } := by
  induction ms with
  | nil => intro acc h; exact absurd rfl h
  | cons e rest ih =>
    intro acc _
    cases hr : rest with
    | nil => simp [bumpO, bumpStats]
    | cons e2 r2 =>
      subst hr
      rw [List.foldl_cons, ih (bumpO acc e) (by simp)]
      have hgd : (bumpO acc e).getD zeroStats =
          bumpStats ((acc.getD zeroStats)) e.2.1 e.2.2 := rfl
      rw [hgd]
      simp only [bumpStats, List.length_cons, List.map_cons, List.sum_cons,
        Option.some.injEq, LanguageStats.mk.injEq]
      refine ⟨by push_cast; ring, by ring, by ring⟩

theorem sumFileCounts_foldl_recStep (es : List (String × Int × Int)) :
    ∀ s : StatsTable,
      sumFileCounts (es.foldl recStep s) = sumFileCounts s + es.length := by
  induction es with
  | nil => intro s; simp
  | cons e rest ih =>
    intro s
    rw [List.foldl_cons, ih]
    unfold recStep
    rw [sumFileCounts_recordFile]
    simp only [List.length_cons]
    push_cast
    ring

theorem length_filterMap_taskEffect (ts : List FileTask) :
    (ts.filterMap taskEffect).length =
      (ts.filter (fun t => !t.2.openErr && !t.2.statErr)).length := by
  induction ts with
  | nil => rfl
  | cons t rest ih =>
    by_cases h1 : t.2.openErr <;> by_cases h2 : t.2.statErr <;>
      simp [List.filterMap_cons, List.filter_cons, taskEffect, h1, h2, ih]

end AggregationLemmas

/-- `languageExtMap` (main.go:29-42 = part_000:34-47 = part_001:20-33). -/
def languageExtMap : List (String × String) :=
  [(".go", "Go"), (".py", "Python"), (".js", "JavaScript"), (".ts", "TypeScript"),
   (".java", "Java"), (".cpp", "C++"), (".c", "C"), (".rb", "Ruby"),
   (".php", "PHP"), (".rs", "Rust"), (".swift", "Swift"), (".kt", "Kotlin")]

/-- `filepath.Ext` on a base name: the suffix starting at the final
dot, empty when the name has no dot.  In particular a dotfile whose
name starts with its only dot, such as ".go", is its own extension. -/
def extChars : List Char → List Char
  | [] => []
  | c :: rest =>
    match extChars rest with
    | [] => if c = '.' then c :: rest else []
    | e => e

/-- `filepath.Ext(path)` for a base name. -/
def extOf (s : String) : String := String.mk (extChars s.data)

/-- `strings.ToLower` (character-wise lowering suffices for the
extensions involved). -/
def lowerStr (s : String) : String := String.mk (s.data.map Char.toLower)

/-- The classification of main.go:100-101: look the lowercased
extension up in the extension map. -/
def classify (name : String) : Option String :=
  lookupA languageExtMap (lowerStr (extOf name))

/-- Result of one `filepath.Match` call as the walker consumes it:
(matched, err ≠ nil).  `filepath.Match` is Go standard library — an
external collaborator of this repository — so the walker is
parameterized over it.  A malformed pattern is one on which the
matcher reports an error. -/
abbrev MatchFn := String → String → Bool × Bool

/-- The exclusion loop of main.go:93-98 (= part_000:122-127): the file
is dropped at the first pattern whose match reports an error or
matches (`if err != nil || matched { return nil }`).  Pattern
trimming, `strings.TrimSpace`, is input preprocessing outside this
core. -/
def excludedGo (mf : MatchFn) (pats : List String) (base : String) : Bool :=
  pats.any fun p => (mf p base).2 || (mf p base).1

/-- The exclusion loop of part_001:70-79: a pattern whose match
reports an error is skipped (`continue`); the file is dropped at the
first pattern that matches without error. -/
def excludedP1 (mf : MatchFn) (pats : List String) (base : String) : Bool :=
  pats.any fun p => !(mf p base).2 && (mf p base).1

mutual
/-- A directory-tree node as `filepath.Walk` observes it: a regular
file (name, whether lstat of it fails, its contents model) or a
directory (name, whether lstat of it fails, whether `readDirNames` of
it fails, entries in traversal order). -/
inductive FSNode where
  | file : String → Bool → FileData → FSNode
  | dir : String → Bool → Bool → FSList → FSNode
/-- Directory entries, as a mutual inductive list so that every
traversal below is structurally recursive and kernel-evaluable. -/
inductive FSList where
  | nil : FSList
  | cons : FSNode → FSList → FSList
end

def FSNode.lstatErr : FSNode → Bool
  | .file _ e _ => e
  | .dir _ e _ _ => e

def FSNode.isDir : FSNode → Bool
  | .file _ _ _ => false
  | .dir _ _ _ _ => true

def FSList.append : FSList → FSList → FSList
  | .nil, t => t
  | .cons c rest, t => .cons c (FSList.append rest t)

/-- What the `filepath.Walk` callback returns to the walk driver:
nil, `filepath.SkipDir`, or a real error. -/
inductive WalkRet where
  | ok
  | skipDir
  | fail
deriving DecidableEq, Repr

/-- The callback body of main.go:89-103 for a regular file visited
without error: drop it if the exclusion loop fires, otherwise classify
it and send a task for a recognized extension. -/
def fileTask (excl : String → Bool) (name : String) (d : FileData) :
    Option FileTask :=
  if excl name then none
  else
    match classify name with
    | some lang => some (lang, d)
    | none => none

mutual
/-- `filepath.Walk`'s recursive `walk` (Go standard library) driving
the callback of main.go:84-106 / part_000:107-134, with the returned
error and the tasks sent to the channel made explicit.  When
`readDirNames` of a directory fails, the callback receives the error
and returns it (main.go:85-87), aborting the walk.  With the skip
flag set, the callback returns `filepath.SkipDir` for a directory
named node_modules (part_000:112-115), pruning its subtree. -/
def walkNode (skip : Bool) (excl : String → Bool) :
    FSNode → List FileTask × WalkRet
  | .file name _ d => ((fileTask excl name d).toList, .ok)
  | .dir name _ readErr entries =>
    if readErr then ([], .fail)
    else if skip && name == "node_modules" then ([], .skipDir)
    else walkEntries skip excl entries

/-- The entry loop of `walk`: an entry whose lstat fails makes the
callback return that error, aborting the whole walk; a `SkipDir`
returned from a directory entry prunes that entry only. -/
def walkEntries (skip : Bool) (excl : String → Bool) :
    FSList → List FileTask × WalkRet
  | .nil => ([], .ok)
  | .cons c rest =>
    if c.lstatErr then ([], .fail)
    else
      match walkNode skip excl c with
      | (ts, .fail) => (ts, .fail)
      | (ts, .skipDir) =>
        if c.isDir then
          match walkEntries skip excl rest with
          | (ts2, r2) => (ts ++ ts2, r2)
        else (ts, .skipDir)
      | (ts, .ok) =>
        match walkEntries skip excl rest with
        | (ts2, r2) => (ts ++ ts2, r2)
end

/-- `filepath.Walk(root, …)` (main.go:84): lstat of the root itself,
then the recursive walk; a top-level `SkipDir` is reported as nil. -/
def runWalk (skip : Bool) (excl : String → Bool) (root : FSNode) :
    List FileTask × WalkRet :=
  if root.lstatErr then ([], .fail)
  else
    match walkNode skip excl root with
    | (ts, .skipDir) => (ts, .ok)
    | res => res

/-- The whole pipeline of main.go / part_000: the walker goroutine
emits tasks into the channel; a traversal error is only printed
(main.go:107-109) and the channel is closed either way (main.go:111);
the workers drain the channel and fold every emitted task into the
table, which is then rendered.  The Bool records whether the walk
failed (i.e. the error message was printed).  The table is the
aggregation of the emitted tasks in channel order; by claim C5 any
worker interleaving yields the same lookups. -/
def runScan (skip : Bool) (excl : String → Bool) (root : FSNode) :
    StatsTable × Bool :=
  match runWalk skip excl root with
  | (ts, r) => (aggregateTasks ts, r == .fail)

mutual
/-- The regular files of a subtree, in traversal order. -/
def filesOf : FSNode → List (String × FileData)
  | .file name _ d => [(name, d)]
  | .dir _ _ _ es => filesOfList es
def filesOfList : FSList → List (String × FileData)
  | .nil => []
  | .cons c rest => filesOf c ++ filesOfList rest
end

mutual
/-- No lstat or readDir failure anywhere in the subtree. -/
def cleanNode : FSNode → Bool
  | .file _ e _ => !e
  | .dir _ e r es => !e && !r && cleanList es
def cleanList : FSList → Bool
  | .nil => true
  | .cons c rest => cleanNode c && cleanList rest
end

theorem lstatErr_false_of_clean (n : FSNode) (h : cleanNode n = true) :
    n.lstatErr = false := by
  cases n with
  | file name e d =>
    simp [cleanNode] at h
    simp [FSNode.lstatErr, h]
  | dir name e r es =>
    simp [cleanNode] at h
    simp [FSNode.lstatErr, h.1.1]

theorem lookupA_mem {α : Type} (m : List (String × α)) (k : String) (v : α)
    (h : lookupA m k = some v) : (k, v) ∈ m := by
  induction m with
  | nil => simp [lookupA] at h
  | cons hd tl ih =>
    obtain ⟨a, b⟩ := hd
    by_cases hak : a = k
    · subst hak
      simp [lookupA] at h
      simp [h]
    · simp [lookupA, hak] at h
      simp [ih h]

mutual
/-- The walk's return value never depends on the exclusion predicate:
exclusion only filters which files are sent, never what the callback
returns (main.go:93-98 returns nil in both branches). -/
theorem walkNode_ret_indep (skip : Bool) (excl excl' : String → Bool) :
    ∀ n : FSNode, (walkNode skip excl n).2 = (walkNode skip excl' n).2
  | .file name e d => by simp [walkNode]
  | .dir name e r es => by
    cases r with
    | true => simp [walkNode]
    | false =>
      by_cases hs : (skip && (name == "node_modules")) = true <;>
        simp [walkNode, hs, walkEntries_ret_indep skip excl excl' es]

theorem walkEntries_ret_indep (skip : Bool) (excl excl' : String → Bool) :
    ∀ es : FSList, (walkEntries skip excl es).2 = (walkEntries skip excl' es).2
  | .nil => rfl
  | .cons c rest => by
    by_cases hl : c.lstatErr = true
    · simp [walkEntries, hl]
    · have hn := walkNode_ret_indep skip excl excl' c
      have he := walkEntries_ret_indep skip excl excl' rest
      cases hwn : walkNode skip excl c with
      | mk ts r =>
        cases hwn' : walkNode skip excl' c with
        | mk ts' r' =>
          have hrr : r = r' := by
            rw [hwn, hwn'] at hn
            exact hn
          subst hrr
          cases r with
          | fail => simp [walkEntries, hl, hwn, hwn']
          | ok => simp [walkEntries, hl, hwn, hwn', he]
          | skipDir =>
            by_cases hd : c.isDir = true <;>
              simp [walkEntries, hl, hwn, hwn', hd, he]
end

mutual
/-- On an error-free subtree with the skip flag off, the walk descends
everywhere and emits exactly one task per regular file that survives
the exclusion filter and the classifier, in traversal order. -/
theorem walkNode_clean_eq (excl : String → Bool) :
    ∀ n : FSNode, cleanNode n = true →
      walkNode false excl n =
        ((filesOf n).filterMap (fun p => fileTask excl p.1 p.2), .ok)
  | .file name e d, h => by
    cases hft : fileTask excl name d <;>
      simp [walkNode, filesOf, List.filterMap_cons, hft]
  | .dir name e r es, h => by
    simp [cleanNode] at h
    obtain ⟨⟨he, hr⟩, hes⟩ := h
    subst hr
    simp [walkNode, filesOf, walkEntries_clean_eq excl es hes]

theorem walkEntries_clean_eq (excl : String → Bool) :
    ∀ es : FSList, cleanList es = true →
      walkEntries false excl es =
        ((filesOfList es).filterMap (fun p => fileTask excl p.1 p.2), .ok)
  | .nil, _ => rfl
  | .cons c rest, h => by
    simp [cleanList] at h
    obtain ⟨hc, hrest⟩ := h
    have hl : c.lstatErr = false := lstatErr_false_of_clean c hc
    have h1 := walkNode_clean_eq excl c hc
    have h2 := walkEntries_clean_eq excl rest hrest
    simp [walkEntries, hl, h1, h2, filesOfList, List.filterMap_append]
end

mutual
/-- Every task the walk emits comes from a regular file of the walked
subtree (so never from outside the provided root). -/
theorem walkNode_tasks_sub (skip : Bool) (excl : String → Bool) :
    ∀ (n : FSNode) (t : FileTask), t ∈ (walkNode skip excl n).1 →
      ∃ p, p ∈ filesOf n ∧ fileTask excl p.1 p.2 = some t
  | .file name e d, t, ht => by
    cases hft : fileTask excl name d with
    | none => simp [walkNode, hft] at ht
    | some v =>
      simp [walkNode, hft] at ht
      exact ⟨(name, d), by simp [filesOf], by simp [hft, ht]⟩
  | .dir name e r es, t, ht => by
    cases r with
    | true => simp [walkNode] at ht
    | false =>
      by_cases hs : (skip && (name == "node_modules")) = true
      · simp [walkNode, hs] at ht
      · simp only [walkNode, Bool.false_eq_true, if_false, hs] at ht
        obtain ⟨p, hp, hf⟩ := walkEntries_tasks_sub skip excl es t ht
        exact ⟨p, by simpa [filesOf] using hp, hf⟩

theorem walkEntries_tasks_sub (skip : Bool) (excl : String → Bool) :
    ∀ (es : FSList) (t : FileTask), t ∈ (walkEntries skip excl es).1 →
      ∃ p, p ∈ filesOfList es ∧ fileTask excl p.1 p.2 = some t
  | .nil, t, ht => by simp [walkEntries] at ht
  | .cons c rest, t, ht => by
    by_cases hl : c.lstatErr = true
    · simp [walkEntries, hl] at ht
    · cases hwn : walkNode skip excl c with
      | mk ts r =>
        have hsub : ∀ t', t' ∈ ts →
            ∃ p, p ∈ filesOfList (.cons c rest) ∧ fileTask excl p.1 p.2 = some t' := by
          intro t' ht'
          obtain ⟨p, hp, hf⟩ := walkNode_tasks_sub skip excl c t' (by rw [hwn]; exact ht')
          exact ⟨p, by simp [filesOfList, hp], hf⟩
        have hsubr : ∀ t', t' ∈ (walkEntries skip excl rest).1 →
            ∃ p, p ∈ filesOfList (.cons c rest) ∧ fileTask excl p.1 p.2 = some t' := by
          intro t' ht'
          obtain ⟨p, hp, hf⟩ := walkEntries_tasks_sub skip excl rest t' ht'
          exact ⟨p, by simp [filesOfList, hp], hf⟩
        cases r with
        | fail =>
          simp [walkEntries, hl, hwn] at ht
          exact hsub t ht
        | skipDir =>
          by_cases hd : c.isDir = true
          · simp [walkEntries, hl, hwn, hd] at ht
            rcases ht with ht | ht
            · exact hsub t ht
            · exact hsubr t ht
          · simp [walkEntries, hl, hwn, hd] at ht
            exact hsub t ht
        | ok =>
          simp [walkEntries, hl, hwn] at ht
          rcases ht with ht | ht
          · exact hsub t ht
          · exact hsubr t ht
end

/-- Once the entry loop has failed on a prefix of the entries, the
remaining entries are never visited: the walk's outcome over
`pre ++ post` is the tasks and failure of `pre` alone, whatever
`post` holds. -/
theorem walkEntries_append_of_fail (skip : Bool) (excl : String → Bool) :
    ∀ pre post : FSList, (walkEntries skip excl pre).2 = .fail →
      walkEntries skip excl (pre.append post) =
        ((walkEntries skip excl pre).1, .fail)
  | .nil, post, h => by simp [walkEntries] at h
  | .cons c rest, post, h => by
    by_cases hl : c.lstatErr = true
    · simp [walkEntries, FSList.append, hl]
    · cases hwn : walkNode skip excl c with
      | mk ts r =>
        cases r with
        | fail => simp [walkEntries, FSList.append, hl, hwn]
        | skipDir =>
          by_cases hd : c.isDir = true
          · simp [walkEntries, hl, hwn, hd] at h
            have ih := walkEntries_append_of_fail skip excl rest post h
            simp [walkEntries, FSList.append, hl, hwn, hd, ih]
          · simp [walkEntries, hl, hwn, hd] at h
        | ok =>
          simp [walkEntries, hl, hwn] at h
          have ih := walkEntries_append_of_fail skip excl rest post h
          simp [walkEntries, FSList.append, hl, hwn, ih]

/-- With the skip flag set, a readable directory named node_modules is
answered with `filepath.SkipDir` before any of its entries is visited:
nothing is emitted from it, whatever it contains. -/
theorem walkNode_nm (excl : String → Bool) (es : FSList) :
    walkNode true excl (.dir "node_modules" false false es) = ([], .skipDir) := by
  simp [walkNode]

/-- Replacing the contents of a skipped node_modules directory changes
nothing about the entry loop around it. -/
theorem walkEntries_nm_indep (excl : String → Bool) (es es' : FSList) :
    ∀ pre post : FSList,
      walkEntries true excl
        (pre.append (.cons (.dir "node_modules" false false es) post)) =
      walkEntries true excl
        (pre.append (.cons (.dir "node_modules" false false es') post))
  | .nil, post => by
    simp [FSList.append, walkEntries, FSNode.lstatErr, FSNode.isDir,
      walkNode_nm excl es, walkNode_nm excl es']
  | .cons c rest, post => by
    have ih := walkEntries_nm_indep excl es es' rest post
    by_cases hl : c.lstatErr = true
    · simp [walkEntries, FSList.append, hl]
    · cases hwn : walkNode true excl c with
      | mk ts r =>
        cases r <;> simp [walkEntries, FSList.append, hl, hwn, ih]

/-- "Successfully read", stated from the claim's words (claim C7): the
file was opened, stat'ed, and read to EOF without error.  For
comparison with what the code actually counts. -/
def specSuccessfullyRead (t : FileTask) : Bool :=
  !t.2.openErr && !t.2.statErr && readCleanly t.2.read

/-- C3 (counterexample): a task whose file suffers a read error after
one complete line is not dropped by `processFile` — contrary to the
claim, it changes the Go totals, by one file, one line and the stat
size, because the scan loop of main.go:169-173 never consults
`scanner.Err()`. -/
theorem c3_counterexample :
    processFile ⟨false, false, 7, .errAfter ['a', '\n']⟩ "Go" [] =
      [("Go", ⟨1, 1, 7⟩)] ∧
    processFile ⟨false, false, 7, .errAfter ['a', '\n']⟩ "Go" [] ≠ [] := by
  exact ⟨by decide, by decide⟩

/-- C3 (amended): a task whose open or stat fails contributes nothing
to any total; a task whose read fails midway is not dropped — the
lines delivered before the error and the stat size are recorded as if
the file had been read completely. -/
theorem c3_amended :
    (∀ (f : FileData) (lang : String) (s : StatsTable),
      f.openErr = true ∨ f.statErr = true → processFile f lang s = s) ∧
    (∀ (f : FileData) (lang : String) (s : StatsTable),
      f.openErr = false → f.statErr = false →
      processFile f lang s =
        recordFile s lang (scanLineCount (delivered f.read) : Int) f.size) := by
  constructor
  · rintro f lang s (h | h) <;> simp [processFile, h]
  · intro f lang s h1 h2
    simp [processFile, h1, h2]

/-- Witness for `c3_amended`: a task that fails to open leaves a
concrete table unchanged. -/
theorem c3_amended_witness :
    processFile ⟨true, false, 7, .ok []⟩ "Go" [("Go", ⟨1, 1, 1⟩)] =
      [("Go", ⟨1, 1, 1⟩)] :=
  c3_amended.1 _ "Go" _ (Or.inl rfl)

/-- C4: `recordFile` creates the entry for an unseen language and
applies the increment as one unit (the whole block runs under
`statsMutex`): recording two first files of the same new language in
either serialization order leaves exactly one entry for it, holding
both workers' contributions, and no other language's entry changes. -/
theorem c4_recordFile_indivisible (s : StatsTable) (l : String)
    (lc1 bc1 lc2 bc2 : Int) (h : lookupA s l = none) :
    countL (recordFile (recordFile s l lc1 bc1) l lc2 bc2) l = 1 ∧
    lookupA (recordFile (recordFile s l lc1 bc1) l lc2 bc2) l =
      some ⟨2, lc1 + lc2, bc1 + bc2⟩ ∧
    countL (recordFile (recordFile s l lc2 bc2) l lc1 bc1) l = 1 ∧
    lookupA (recordFile (recordFile s l lc2 bc2) l lc1 bc1) l =
      some ⟨2, lc2 + lc1, bc2 + bc1⟩ ∧
    (∀ l', l' ≠ l →
      lookupA (recordFile (recordFile s l lc1 bc1) l lc2 bc2) l' = lookupA s l') := by
  have h1 : lookupA (recordFile s l lc1 bc1) l =
      some (bumpStats zeroStats lc1 bc1) := by
    rw [lookupA_recordFile]
    simp [h]
  have h2 : lookupA (recordFile s l lc2 bc2) l =
      some (bumpStats zeroStats lc2 bc2) := by
    rw [lookupA_recordFile]
    simp [h]
  refine ⟨?_, ?_, ?_, ?_, ?_⟩
  · rw [countL_recordFile_of_present _ _ _ _ _ h1, countL_recordFile_of_absent _ _ _ _ h]
  · rw [lookupA_recordFile]
    simp only [if_pos rfl, h1, Option.getD_some]
    simp [bumpStats, zeroStats, LanguageStats.mk.injEq]
  · rw [countL_recordFile_of_present _ _ _ _ _ h2, countL_recordFile_of_absent _ _ _ _ h]
  · rw [lookupA_recordFile]
    simp only [if_pos rfl, h2, Option.getD_some]
    simp [bumpStats, zeroStats, LanguageStats.mk.injEq]
  · intro l' hne
    rw [lookupA_recordFile, if_neg hne, lookupA_recordFile, if_neg hne]

/-- Witness for `c4_recordFile_indivisible`: two first Go files
recorded into a table that only knows Python. -/
theorem c4_witness :
    lookupA (recordFile (recordFile [("Python", ⟨1, 2, 3⟩)] "Go" 10 100) "Go" 20 200)
      "Go" = some ⟨2, 10 + 20, 100 + 200⟩ :=
  (c4_recordFile_indivisible [("Python", ⟨1, 2, 3⟩)] "Go" 10 100 20 200 (by decide)).2.1

/-- C5: the aggregated table does not depend on the order in which the
worker pool processes the tasks: any two interleavings (permutations)
of the same task list — in particular a 1-worker and an N-worker run —
produce tables with identical lookups, because each task's
contribution is a commutative increment. -/
theorem c5_order_independence (ts1 ts2 : List FileTask) (hp : ts1.Perm ts2)
    (l : String) :
    lookupA (aggregateTasks ts1) l = lookupA (aggregateTasks ts2) l := by
  unfold aggregateTasks
  rw [foldl_workerStep_eq, foldl_workerStep_eq, lookupA_foldl_recStep,
    lookupA_foldl_recStep]
  have hpe : (ts1.filterMap taskEffect).Perm (ts2.filterMap taskEffect) :=
    hp.filterMap _
  have hpf := hpe.filter (fun e => decide (e.1 = l))
  by_cases hz : (ts1.filterMap taskEffect).filter (fun e => decide (e.1 = l)) = []
  · have h' := hpf
    rw [hz] at h'
    have hz2 := (h'.symm).eq_nil
    rw [hz, hz2]
  · have hz2 : (ts2.filterMap taskEffect).filter (fun e => decide (e.1 = l)) ≠ [] := by
      intro hnil
      apply hz
      have h' := hpf
      rw [hnil] at h'
      exact h'.eq_nil
    rw [foldl_bumpO_closed _ _ hz, foldl_bumpO_closed _ _ hz2, hpf.length_eq,
      (hpf.map (fun e => e.2.1)).sum_eq, (hpf.map (fun e => e.2.2)).sum_eq]

/-- Witness for `c5_order_independence`: two tasks processed in the
two possible orders give the same Go entry. -/
theorem c5_witness :
    lookupA (aggregateTasks [("Go", ⟨false, false, 5, .ok ['a', '\n']⟩),
      ("Python", ⟨false, false, 3, .ok ['b']⟩)]) "Go" =
    lookupA (aggregateTasks [("Python", ⟨false, false, 3, .ok ['b']⟩),
      ("Go", ⟨false, false, 5, .ok ['a', '\n']⟩)]) "Go" :=
  c5_order_independence _ _ (by decide) "Go"

/-- C6: for every readable file the scanner's line count equals the
spec's count — the number of newline terminators plus one when a final
partial line has no trailing terminator, with an empty file counting
zero lines — and the empty.js scenario records one JavaScript file
with zero lines and zero bytes. -/
theorem c6_counter_line_count :
    (∀ c : List Char, scanLineCount c = specLineCount c) ∧
    countLines ⟨false, false, 0, .ok []⟩ = (0, false) ∧
    processFile ⟨false, false, 0, .ok []⟩ "JavaScript" [] =
      [("JavaScript", ⟨1, 0, 0⟩)] := by
  refine ⟨?_, by decide, by decide⟩
  intro c
  induction c with
  | nil => rfl
  | cons x rest ih =>
    cases rest with
    | nil =>
      by_cases hx : x = '\n'
      · simp [scanLineCount, specLineCount, hx]
      · have hx' : ¬('\n' = x) := fun hh => hx hh.symm
        simp [scanLineCount, specLineCount, hx, hx', List.count_cons]
    | cons y r =>
      have hlast : (x :: y :: r).getLast? = (y :: r).getLast? :=
        List.getLast?_cons_cons
      have hspec : specLineCount (x :: y :: r) =
          (if x = '\n' then 1 else 0) + specLineCount (y :: r) := by
        unfold specLineCount
        rw [hlast]
        have hc : List.count '\n' (x :: y :: r) =
            (if x = '\n' then 1 else 0) + List.count '\n' (y :: r) := by
          by_cases hx : x = '\n'
          · simp [hx, List.count_cons]
            omega
          · have hx' : ¬('\n' = x) := fun hh => hx hh.symm
            simp [hx, hx', List.count_cons]
        rw [hc]
        by_cases hl : (y :: r).getLast? = some '\n' <;> simp [hl] <;> omega
      rw [hspec]
      by_cases hx : x = '\n' <;> simp [scanLineCount, hx, ih]

/-- C7 (counterexample): on a tree whose single Go file suffers a read
error after one complete line, the run's file counts sum to 1 while
the number of successfully read files is 0: the two counts the claim
equates differ, because `processFile` never consults
`scanner.Err()`. -/
theorem c7_counterexample :
    sumFileCounts ((runScan false (fun _ => false)
      (.dir "root" false false
        (.cons (.file "a.go" false ⟨false, false, 7, .errAfter ['a', '\n']⟩) .nil))).1) = 1 ∧
    (((runWalk false (fun _ => false)
      (.dir "root" false false
        (.cons (.file "a.go" false ⟨false, false, 7, .errAfter ['a', '\n']⟩) .nil))).1.filter
          specSuccessfullyRead).length : Int) = 0 ∧
    sumFileCounts ((runScan false (fun _ => false)
      (.dir "root" false false
        (.cons (.file "a.go" false ⟨false, false, 7, .errAfter ['a', '\n']⟩) .nil))).1) ≠
    (((runWalk false (fun _ => false)
      (.dir "root" false false
        (.cons (.file "a.go" false ⟨false, false, 7, .errAfter ['a', '\n']⟩) .nil))).1.filter
          specSuccessfullyRead).length : Int) := by
  exact ⟨by decide, by decide, by decide⟩

/-- C7 (amended): at the end of every run the per-language file counts
sum to the number of emitted tasks that did not fail open or stat — a
task whose read fails midway is still counted even though it was not
successfully read. -/
theorem c7_amended (skip : Bool) (excl : String → Bool) (root : FSNode) :
    sumFileCounts ((runScan skip excl root).1) =
      (((runWalk skip excl root).1.filter
        (fun t => !t.2.openErr && !t.2.statErr)).length : Int) := by
  unfold runScan
  cases hw : runWalk skip excl root with
  | mk ts r =>
    simp only
    unfold aggregateTasks
    rw [foldl_workerStep_eq, sumFileCounts_foldl_recStep,
      length_filterMap_taskEffect]
    simp [sumFileCounts]

/-- C1 (counterexample): on a tree whose first entry is a readable Go
file and whose second entry is an unreadable directory, the walk fails
— and yet the run's table is not empty: main.go:107-109 only prints
the traversal error, so a partial report over the already-emitted
tasks is produced, contrary to the claim. -/
theorem c1_counterexample :
    (runScan false (fun _ => false) (.dir "Desktop" false false
      (.cons (.file "a.go" false ⟨false, false, 5, .ok ['h', 'i', '\n']⟩)
        (.cons (.dir "bad" false true .nil) .nil)))).2 = true ∧
    (runScan false (fun _ => false) (.dir "Desktop" false false
      (.cons (.file "a.go" false ⟨false, false, 5, .ok ['h', 'i', '\n']⟩)
        (.cons (.dir "bad" false true .nil) .nil)))).1 = [("Go", ⟨1, 1, 5⟩)] ∧
    [("Go", (⟨1, 1, 5⟩ : LanguageStats))] ≠ ([] : StatsTable) := by
  exact ⟨by decide, by decide, by decide⟩

/-- C1 (amended): a traversal error on any entry aborts the rest of
the walk — entries after the failing prefix are never visited and
contribute nothing — but the error is only logged, not propagated as
a failure of the run: the tasks emitted before the error are still
aggregated and a (partial) report is produced. -/
theorem c1_amended (excl : String → Bool) (name : String) (pre post : FSList)
    (h : (walkEntries false excl pre).2 = .fail) :
    runScan false excl (.dir name false false (pre.append post)) =
      (aggregateTasks (walkEntries false excl pre).1, true) := by
  have hw := walkEntries_append_of_fail false excl pre post h
  simp [runScan, runWalk, walkNode, FSNode.lstatErr, hw]

/-- Witness for `c1_amended`: the bad directory makes the prefix fail,
and a file appended after it is ignored while `a.go` is still
reported. -/
theorem c1_amended_witness :
    runScan false (fun _ => false) (.dir "Desktop" false false
      ((FSList.cons (.file "a.go" false ⟨false, false, 5, .ok ['h', 'i', '\n']⟩)
        (.cons (.dir "bad" false true .nil) .nil)).append
          (.cons (.file "late.py" false ⟨false, false, 9, .ok ['x']⟩) .nil))) =
      (aggregateTasks (walkEntries false (fun _ => false)
        (FSList.cons (.file "a.go" false ⟨false, false, 5, .ok ['h', 'i', '\n']⟩)
          (.cons (.dir "bad" false true .nil) .nil))).1, true) :=
  c1_amended (fun _ => false) "Desktop" _ _ (by decide)

/-- A model of a `filepath.Match` instance under which the pattern "["
is malformed: Go's matcher answers `(false, ErrBadPattern)` for it on
every name, and (false, nil) for the other patterns involved. -/
def mfBad : MatchFn := fun p _ => if p = "[" then (false, true) else (false, false)

/-- C2 (counterexample): with the single malformed pattern "[", the
readable file a.go is dropped — the run's table is empty — whereas
with the pattern absent the file is kept and classified: the walker of
main.go:93-98 treats a matcher error like a match (`err != nil ||
matched`), excluding the file, not like a non-match. -/
theorem c2_counterexample :
    (runScan false (excludedGo mfBad ["["]) (.dir "root" false false
      (.cons (.file "a.go" false ⟨false, false, 3, .ok ['x']⟩) .nil))).1 = [] ∧
    (runScan false (excludedGo mfBad []) (.dir "root" false false
      (.cons (.file "a.go" false ⟨false, false, 3, .ok ['x']⟩) .nil))).1 =
      [("Go", ⟨1, 1, 3⟩)] ∧
    (runScan false (excludedGo mfBad ["["]) (.dir "root" false false
      (.cons (.file "a.go" false ⟨false, false, 3, .ok ['x']⟩) .nil))).1 ≠
    (runScan false (excludedGo mfBad []) (.dir "root" false false
      (.cons (.file "a.go" false ⟨false, false, 3, .ok ['x']⟩) .nil))).1 := by
  exact ⟨by decide, by decide, by decide⟩

/-- C2 (amended): in the current walker a malformed pattern is treated
as a match — every file whose base name reaches it is excluded (fails
closed); traversal is never aborted by it, since the walk's return
value does not depend on the exclusion outcome at all.  The earlier
variant part_001 is the one that treats a malformed pattern as a
non-match, skipping it with `continue`. -/
theorem c2_amended :
    (∀ (mf : MatchFn) (pats : List String) (p base : String),
      p ∈ pats → (mf p base).2 = true → excludedGo mf pats base = true) ∧
    (∀ (mf : MatchFn) (ps1 ps2 : List String) (p base : String),
      (mf p base).2 = true →
      excludedP1 mf (ps1 ++ p :: ps2) base = excludedP1 mf (ps1 ++ ps2) base) ∧
    (∀ (skip : Bool) (excl excl' : String → Bool) (n : FSNode),
      (walkNode skip excl n).2 = (walkNode skip excl' n).2) := by
  refine ⟨?_, ?_, ?_⟩
  · intro mf pats p base hmem herr
    unfold excludedGo
    rw [List.any_eq_true]
    exact ⟨p, hmem, by simp [herr]⟩
  · intro mf ps1 ps2 p base herr
    induction ps1 with
    | nil => simp [excludedP1, herr]
    | cons q qs ih =>
      simp [excludedP1] at ih ⊢
      rw [ih]
  · intro skip excl excl' n
    exact walkNode_ret_indep skip excl excl' n

/-- Witness for `c2_amended`: the malformed pattern "[" excludes the
file a.go. -/
theorem c2_amended_witness : excludedGo mfBad ["["] "a.go" = true :=
  c2_amended.1 mfBad ["["] "[" "a.go" (by decide) (by decide)

/-- C8: the walk is confined to the provided root.  On an error-free
tree (skip flag off) the walker emits exactly one task per regular
file under the root whose extension maps to a known language and
which is not excluded, in traversal order; and in every run, each
emitted task comes from a regular file of the root's subtree — no
file outside the given root is ever scanned. -/
theorem c8_walker_emission (excl : String → Bool) (root : FSNode) :
    (cleanNode root = true →
      runWalk false excl root =
        ((filesOf root).filterMap (fun p => fileTask excl p.1 p.2), .ok)) ∧
    (∀ (skip : Bool) (t : FileTask), t ∈ (runWalk skip excl root).1 →
      ∃ p, p ∈ filesOf root ∧ fileTask excl p.1 p.2 = some t) := by
  constructor
  · intro h
    have h1 : root.lstatErr = false := lstatErr_false_of_clean root h
    have h2 := walkNode_clean_eq excl root h
    simp [runWalk, h1, h2]
  · intro skip t ht
    unfold runWalk at ht
    by_cases h1 : root.lstatErr = true
    · simp [h1] at ht
    · have hm : t ∈ (walkNode skip excl root).1 := by
        cases hwn : walkNode skip excl root with
        | mk ts r =>
          rw [if_neg h1, hwn] at ht
          cases r <;> simpa using ht
      exact walkNode_tasks_sub skip excl root t hm

/-- Witness for `c8_walker_emission`: a clean two-file tree, where
a.go is emitted and notes.txt is silently dropped by the
classifier. -/
theorem c8_witness :
    runWalk false (fun _ => false)
      (.dir "root" false false (.cons (.file "a.go" false ⟨false, false, 3, .ok ['x']⟩)
        (.cons (.file "notes.txt" false ⟨false, false, 2, .ok ['y']⟩) .nil))) =
      (List.filterMap (fun p => fileTask (fun _ => false) p.1 p.2)
        (filesOf (.dir "root" false false
          (.cons (.file "a.go" false ⟨false, false, 3, .ok ['x']⟩)
            (.cons (.file "notes.txt" false ⟨false, false, 2, .ok ['y']⟩) .nil)))), .ok) :=
  (c8_walker_emission (fun _ => false) _).1 (by decide)

/-- C9: with the skip flag set, a directory named node_modules is
answered with `filepath.SkipDir` before any of its entries is visited,
so its entire subtree is pruned; consequently a run over a tree
containing such a directory is identical whatever that directory
contains — a file planted inside it contributes nothing to any
total. -/
theorem c9_skip_prunes_subtree (excl : String → Bool) (es es' : FSList)
    (name : String) (pre post : FSList) :
    walkNode true excl (.dir "node_modules" false false es) = ([], .skipDir) ∧
    runScan true excl (.dir name false false
        (pre.append (.cons (.dir "node_modules" false false es) post))) =
      runScan true excl (.dir name false false
        (pre.append (.cons (.dir "node_modules" false false es') post))) := by
  refine ⟨walkNode_nm excl es, ?_⟩
  by_cases hs : (true && (name == "node_modules")) = true
  · simp [runScan, runWalk, walkNode, FSNode.lstatErr, hs]
  · simp [runScan, runWalk, walkNode, FSNode.lstatErr, hs,
      walkEntries_nm_indep excl es es' pre post]

/-- C10: a file whose base name is exactly a recognized extension, for
example a dotfile named ".go", is classified as that language —
`filepath.Ext` yields the whole base name for it — and a run over a
tree containing such a readable file counts it in that language's
totals. -/
theorem c10_dotfile_classified (ext lang : String) (sz : Int) (r : ReadOutcome)
    (h : lookupA languageExtMap ext = some lang) :
    classify ext = some lang ∧
    runScan false (fun _ => false)
        (.dir "root" false false
          (.cons (.file ext false ⟨false, false, sz, r⟩) .nil)) =
      ([(lang, ⟨1, (scanLineCount (delivered r) : Int), sz⟩)], false) := by
  have hmem : (ext, lang) ∈ languageExtMap := lookupA_mem _ _ _ h
  have hfacts : ∀ p ∈ languageExtMap, extOf p.1 = p.1 ∧ lowerStr p.1 = p.1 := by decide
  obtain ⟨hext, hlow⟩ := hfacts _ hmem
  have hcl : classify ext = some lang := by
    unfold classify
    rw [hext, hlow, h]
  refine ⟨hcl, ?_⟩
  simp [runScan, runWalk, walkNode, walkEntries, FSNode.lstatErr, FSNode.isDir,
    fileTask, hcl, aggregateTasks, workerStep, processFile, recordFile, lookupA,
    updateStats, bumpStats, zeroStats]

/-- Witness for `c10_dotfile_classified`: a hidden file named ".go"
with one full line and one partial line is counted as Go. -/
theorem c10_witness :
    classify ".go" = some "Go" ∧
    runScan false (fun _ => false)
        (.dir "root" false false
          (.cons (.file ".go" false ⟨false, false, 4, .ok ['h', '\n', 'i']⟩) .nil)) =
      ([("Go", ⟨1, (scanLineCount (delivered (.ok ['h', '\n', 'i'])) : Int), 4⟩)], false) :=
  c10_dotfile_classified ".go" "Go" 4 (.ok ['h', '\n', 'i']) (by decide)
